import Mathlib

/-!
Verification of the `static_bits` width-bounded integer library
(`src/main.rs`).  The library provides a `u128`-backed container
`MaxBits<Width>` whose declared bit width `Width` is a type-level natural
(`typenum::Unsigned`).  We embed the data model shallowly: the phantom
type-level width becomes a `Nat` field, the `u128` storage cell becomes a
`Nat` (reduced `% 2 ^ 128` wherever Rust `u128` arithmetic truncates), and
each type-class constraint of a Rust `impl` becomes an explicit hypothesis
of the corresponding theorem.
-/

namespace StaticBits

/-- Rust: `type MaximumWidth = U128;` — capacity of the storage cell in bits. -/
def MaximumWidth : Nat := 128

/-- Rust: `struct MaxBits<Width: Unsigned> { data: u128, _marker: PhantomData<*const Width> }`.
The phantom type parameter `Width` becomes an explicit field; the `u128`
cell becomes a natural number (values obtained from actual `u128`s satisfy
`data < 2 ^ 128`). -/
structure MaxBits where
  width : Nat
  data : Nat
deriving DecidableEq

/-- Number of significant bits of `n`, computed with explicit fuel; fuel 128
suffices for every `u128` value.  This realises the quantity
`128 - data.leading_zeros()` used by the Rust `fits` check. -/
def sigBitsAux : Nat → Nat → Nat
  | 0, _ => 0
  | fuel + 1, n => if n = 0 then 0 else sigBitsAux fuel (n / 2) + 1

/-- Significant-bit count of a `u128` value. -/
def sigBits (n : Nat) : Nat := sigBitsAux MaximumWidth n

/-- Rust: `u128::leading_zeros` — 128 minus the number of significant bits. -/
def leadingZeros (d : Nat) : Nat := MaximumWidth - sigBits d

/-- Rust: `MaxBits::fits`, i.e.
`data.leading_zeros() >= (MaximumWidth::to_u32() - Width::to_u32())`.
For supported widths `W ≤ 128` the truncated `Nat` subtraction here is
exactly the `u32` subtraction of the source; `fitsChecked` below models the
`u32` subtraction's overflow behaviour for `W > 128`. -/
def fits (W : Nat) (d : Nat) : Bool :=
  decide (MaximumWidth - W ≤ leadingZeros d)

/-- Checked `u32` subtraction: `a - b` panics (`none`) when `b > a`. -/
def checkedSub (a b : Nat) : Option Nat :=
  if b ≤ a then some (a - b) else none

/-- Rust `MaxBits::fits` with the `u32` subtraction's overflow check made
explicit: `MaximumWidth::to_u32() - Width::to_u32()` panics (`none`) when
`Width > 128`; nothing in the source constrains `Width ≤ MaximumWidth`. -/
def fitsChecked (W : Nat) (d : Nat) : Option Bool :=
  (checkedSub MaximumWidth W).map fun k => decide (k ≤ leadingZeros d)

/-- Rust: `MaxBits::new` — the only runtime-validated constructor. -/
def new (W : Nat) (d : Nat) : Option MaxBits :=
  if fits W d then some ⟨W, d⟩ else none

/-- Rust `MaxBits::new` built on `fitsChecked`: the outer `none` models the
panic of the width subtraction inside `fits`, the inner option is `new`'s
own result. -/
def newChecked (W : Nat) (d : Nat) : Option (Option MaxBits) :=
  (fitsChecked W d).map fun ok => if ok then some ⟨W, d⟩ else none

/-- Rust: `MaxBits::into_inner`. -/
def into_inner (v : MaxBits) : Nat := v.data

/-- Rust: `MaxBits::widen` — same bits, new tag.  The compile-time
constraint `Widened: IsGreaterOrEqual<Width>` appears as a hypothesis of
the theorems that use it. -/
def widen (v : MaxBits) (W' : Nat) : MaxBits := ⟨W', v.data⟩

/-- Rust: `MaxBits::narrow` — delegates to `MaxBits::<Narrowed>::new`.  The
compile-time constraint `Narrowed: IsLessOrEqual<Width>` appears as a
hypothesis. -/
def narrow (v : MaxBits) (W' : Nat) : Option MaxBits := new W' v.data

/-- Rust: `impl Shl` — output width `Width + Shift` (constrained
`IsLessOrEqual<MaximumWidth>`), data `self.data << Shift::to_u32()` in
`u128`, i.e. modulo `2 ^ 128`.  A `u128` shift by an amount `S ≥ 128` is an
arithmetic-overflow program error in Rust: checked builds panic, unchecked
builds mask the amount to `S % 128`; we model the unchecked (masked)
semantics.  The constraint `Width + Shift ≤ MaximumWidth` only permits
`S = 128` with `Width = 0`, where the invariant forces `data = 0`. -/
def shl (v : MaxBits) (S : Nat) : MaxBits :=
  ⟨v.width + S, (v.data <<< (S % MaximumWidth)) % 2 ^ MaximumWidth⟩

/-- Rust: `impl Shr` — output width `Width - Shift` (the typenum bound
`Width: Sub<Shift>` requires only `Shift ≤ Width`), data
`self.data >> Shift::to_u32()`.  As with `shl`, a shift amount `S ≥ 128`
overflows the `u128` shift: checked builds panic, unchecked builds mask the
amount to `S % 128` — leaving the data unchanged at `S = 128`; we model the
unchecked (masked) semantics.  Unlike `shl`, nothing here keeps `S` below
128: `Shift = Width = 128` type-checks. -/
def shr (v : MaxBits) (S : Nat) : MaxBits :=
  ⟨v.width - S, v.data >>> (S % MaximumWidth)⟩

/-- Rust: `impl BitOr` — output width `Max<Width, RhsWidth>`, data
`self.data | rhs.data`. -/
def bitor (a b : MaxBits) : MaxBits :=
  ⟨max a.width b.width, a.data ||| b.data⟩

/-- Rust: `impl BitAnd` — output width `Min<Width, RhsWidth>`, data
`self.data & rhs.data`. -/
def bitand (a b : MaxBits) : MaxBits :=
  ⟨min a.width b.width, a.data &&& b.data⟩

/-- Rust: `impl BitXor` — output width `Max<Width, RhsWidth>`, data
`self.data ^ rhs.data`. -/
def bitxor (a b : MaxBits) : MaxBits :=
  ⟨max a.width b.width, a.data ^^^ b.data⟩

/-- Rust: `impl Not` — output width `MaximumWidth` unconditionally, data
`!self.data`, the `u128` complement: xor with the all-ones 128-bit mask. -/
def bnot (a : MaxBits) : MaxBits :=
  ⟨MaximumWidth, a.data ^^^ (2 ^ MaximumWidth - 1)⟩

/-- Rust: `impl Add` — output width `Max<Width, RhsWidth> + 1` (constrained
`IsLessOrEqual<MaximumWidth>`), data `self.data + rhs.data` in `u128`. -/
def add (a b : MaxBits) : MaxBits :=
  ⟨max a.width b.width + 1, (a.data + b.data) % 2 ^ MaximumWidth⟩

/-- Rust: `impl Sub` — output width `Width - 1` (typenum bounds
`Width: Sub<U1>`, i.e. `1 ≤ Width`, and `RhsWidth: IsLessOrEqual<Width>`);
the body computes `self.data + rhs.data`, exactly as `Add` does. -/
def sub (a b : MaxBits) : MaxBits :=
  ⟨a.width - 1, (a.data + b.data) % 2 ^ MaximumWidth⟩

/-- The fits invariant of the spec (§3): the value fits in a `u128` cell
and the cell has at least `MaximumWidth - width` leading zero bits. -/
def Inv (v : MaxBits) : Prop :=
  v.data < 2 ^ MaximumWidth ∧ fits v.width v.data = true

instance (v : MaxBits) : Decidable (Inv v) :=
  inferInstanceAs (Decidable (_ ∧ _))

/-! Helper lemmas characterising `sigBits` and `fits`. -/

theorem sigBitsAux_le_iff (fuel : Nat) :
    ∀ n W, n < 2 ^ fuel → (sigBitsAux fuel n ≤ W ↔ n < 2 ^ W) := by
  induction fuel with
  | zero =>
    intro n W h
    rw [pow_zero] at h
    have hn : n = 0 := by omega
    subst hn
    simp [sigBitsAux, Nat.two_pow_pos W]
  | succ fuel ih =>
    intro n W h
    by_cases hn : n = 0
    · subst hn
      simp [sigBitsAux, Nat.two_pow_pos W]
    · have hdiv : n / 2 < 2 ^ fuel := by
        rw [pow_succ] at h
        omega
      have ihd := ih (n / 2) (W - 1) hdiv
      simp only [sigBitsAux, hn, if_false]
      cases W with
      | zero =>
        rw [pow_zero]
        constructor
        · intro hle; omega
        · intro hlt; omega
      | succ W =>
        have ihd' := ih (n / 2) W hdiv
        constructor
        · intro hle
          have h1 : sigBitsAux fuel (n / 2) ≤ W := by omega
          have h2 := ihd'.mp h1
          rw [pow_succ]
          omega
        · intro hlt
          have h1 : n / 2 < 2 ^ W := by
            rw [pow_succ] at hlt
            omega
          have h2 := ihd'.mpr h1
          omega

theorem sigBits_le_iff {n W : Nat} (h : n < 2 ^ MaximumWidth) :
    sigBits n ≤ W ↔ n < 2 ^ W :=
  sigBitsAux_le_iff MaximumWidth n W h

theorem sigBits_le_max {n : Nat} (h : n < 2 ^ MaximumWidth) :
    sigBits n ≤ MaximumWidth :=
  (sigBits_le_iff h).mpr h

theorem fits_iff_min {W d : Nat} (h : d < 2 ^ MaximumWidth) :
    fits W d = true ↔ d < 2 ^ min W MaximumWidth := by
  have hs := sigBits_le_max h
  unfold fits leadingZeros
  simp only [decide_eq_true_eq]
  rcases le_or_lt MaximumWidth W with hW | hW
  · have h0 : MaximumWidth - W = 0 := by omega
    have hm : min W MaximumWidth = MaximumWidth := by omega
    rw [h0, hm]
    exact ⟨fun _ => h, fun _ => Nat.zero_le _⟩
  · have hm : min W MaximumWidth = W := by omega
    rw [hm, ← sigBits_le_iff h]
    omega

theorem fits_iff_of_le {W d : Nat} (h : d < 2 ^ MaximumWidth)
    (hW : W ≤ MaximumWidth) : fits W d = true ↔ d < 2 ^ W := by
  rw [fits_iff_min h]
  have hm : min W MaximumWidth = W := by omega
  rw [hm]

theorem Inv.data_lt {v : MaxBits} (h : Inv v) : v.data < 2 ^ MaximumWidth :=
  h.1

theorem Inv.lt_pow_min {v : MaxBits} (h : Inv v) :
    v.data < 2 ^ min v.width MaximumWidth :=
  (fits_iff_min h.1).mp h.2

theorem inv_of_lt_min {W d : Nat} (h128 : d < 2 ^ MaximumWidth)
    (h : d < 2 ^ min W MaximumWidth) : Inv ⟨W, d⟩ :=
  ⟨h128, (fits_iff_min h128).mpr h⟩

theorem div_pow_lt {d a S : Nat} (h : d < 2 ^ a) : d / 2 ^ S < 2 ^ (a - S) := by
  rcases le_or_lt S a with hS | hS
  · rw [Nat.div_lt_iff_lt_mul (Nat.two_pow_pos S), ← pow_add]
    have ha : a - S + S = a := by omega
    rw [ha]
    exact h
  · have hd : d < 2 ^ S :=
      lt_of_lt_of_le h (Nat.pow_le_pow_right (by norm_num) hS.le)
    have h0 : a - S = 0 := by omega
    rw [h0, pow_zero, Nat.div_eq_of_lt hd]
    omega

theorem add_sum_lt {a b : MaxBits} (ha : Inv a) (hb : Inv b)
    (hc : max a.width b.width + 1 ≤ MaximumWidth) :
    a.data + b.data < 2 ^ (max a.width b.width + 1) := by
  have ha' : a.data < 2 ^ max a.width b.width := by
    refine lt_of_lt_of_le ha.lt_pow_min (Nat.pow_le_pow_right (by norm_num) ?_)
    omega
  have hb' : b.data < 2 ^ max a.width b.width := by
    refine lt_of_lt_of_le hb.lt_pow_min (Nat.pow_le_pow_right (by norm_num) ?_)
    omega
  have : 2 ^ (max a.width b.width + 1) = 2 ^ max a.width b.width * 2 := pow_succ 2 _
  omega

/-! Preservation of the fits invariant, operation by operation. -/

theorem inv_widen {v : MaxBits} {W' : Nat} (h : Inv v) (hW : v.width ≤ W') :
    Inv (widen v W') := by
  show Inv ⟨W', v.data⟩
  refine inv_of_lt_min h.data_lt ?_
  refine lt_of_lt_of_le h.lt_pow_min (Nat.pow_le_pow_right (by norm_num) ?_)
  omega

theorem inv_width_zero {v : MaxBits} (h : Inv v) (h0 : v.width = 0) :
    v.data = 0 := by
  have hlt := h.lt_pow_min
  rw [h0] at hlt
  have hm : min 0 MaximumWidth = 0 := by omega
  rw [hm, pow_zero] at hlt
  omega

theorem inv_shl {v : MaxBits} {S : Nat} (h : Inv v)
    (hc : v.width + S ≤ MaximumWidth) : Inv (shl v S) := by
  rcases lt_or_ge S MaximumWidth with hS | hS
  · have hmod : S % MaximumWidth = S := Nat.mod_eq_of_lt hS
    have hWm : min v.width MaximumWidth = v.width := by omega
    have hd : v.data < 2 ^ v.width := by rw [← hWm]; exact h.lt_pow_min
    have hdS : v.data <<< S < 2 ^ (v.width + S) := by
      rw [Nat.shiftLeft_eq, pow_add]
      exact mul_lt_mul_of_pos_right hd (Nat.two_pow_pos S)
    have h128 : v.data <<< S < 2 ^ MaximumWidth :=
      lt_of_lt_of_le hdS (Nat.pow_le_pow_right (by norm_num) hc)
    show Inv ⟨v.width + S, (v.data <<< (S % MaximumWidth)) % 2 ^ MaximumWidth⟩
    rw [hmod, Nat.mod_eq_of_lt h128]
    refine inv_of_lt_min h128 ?_
    have hm : min (v.width + S) MaximumWidth = v.width + S := by omega
    rw [hm]
    exact hdS
  · have hS128 : S = MaximumWidth := by omega
    have hW0 : v.width = 0 := by omega
    have hd0 : v.data = 0 := inv_width_zero h hW0
    show Inv ⟨v.width + S, (v.data <<< (S % MaximumWidth)) % 2 ^ MaximumWidth⟩
    rw [hS128, hW0, hd0]
    decide

theorem inv_shr {v : MaxBits} {S : Nat} (h : Inv v) (hc : S ≤ v.width)
    (hS : S < MaximumWidth) : Inv (shr v S) := by
  have hmod : S % MaximumWidth = S := Nat.mod_eq_of_lt hS
  have hdS : v.data >>> (S % MaximumWidth) < 2 ^ (min v.width MaximumWidth - S) := by
    rw [hmod, Nat.shiftRight_eq_div_pow]
    exact div_pow_lt h.lt_pow_min
  show Inv ⟨v.width - S, v.data >>> (S % MaximumWidth)⟩
  refine inv_of_lt_min ?_ ?_
  · rw [hmod, Nat.shiftRight_eq_div_pow]
    exact lt_of_le_of_lt (Nat.div_le_self _ _) h.data_lt
  · refine lt_of_lt_of_le hdS (Nat.pow_le_pow_right (by norm_num) ?_)
    omega

theorem inv_bitor {a b : MaxBits} (ha : Inv a) (hb : Inv b) :
    Inv (bitor a b) := by
  show Inv ⟨max a.width b.width, a.data ||| b.data⟩
  have hm1 : min a.width MaximumWidth ≤ min (max a.width b.width) MaximumWidth := by
    omega
  have hm2 : min b.width MaximumWidth ≤ min (max a.width b.width) MaximumWidth := by
    omega
  have h1 : a.data < 2 ^ min (max a.width b.width) MaximumWidth :=
    lt_of_lt_of_le ha.lt_pow_min (Nat.pow_le_pow_right (by norm_num) hm1)
  have h2 : b.data < 2 ^ min (max a.width b.width) MaximumWidth :=
    lt_of_lt_of_le hb.lt_pow_min (Nat.pow_le_pow_right (by norm_num) hm2)
  exact inv_of_lt_min (Nat.or_lt_two_pow ha.data_lt hb.data_lt)
    (Nat.or_lt_two_pow h1 h2)

theorem inv_bitxor {a b : MaxBits} (ha : Inv a) (hb : Inv b) :
    Inv (bitxor a b) := by
  show Inv ⟨max a.width b.width, a.data ^^^ b.data⟩
  have hm1 : min a.width MaximumWidth ≤ min (max a.width b.width) MaximumWidth := by
    omega
  have hm2 : min b.width MaximumWidth ≤ min (max a.width b.width) MaximumWidth := by
    omega
  have h1 : a.data < 2 ^ min (max a.width b.width) MaximumWidth :=
    lt_of_lt_of_le ha.lt_pow_min (Nat.pow_le_pow_right (by norm_num) hm1)
  have h2 : b.data < 2 ^ min (max a.width b.width) MaximumWidth :=
    lt_of_lt_of_le hb.lt_pow_min (Nat.pow_le_pow_right (by norm_num) hm2)
  exact inv_of_lt_min (Nat.xor_lt_two_pow ha.data_lt hb.data_lt)
    (Nat.xor_lt_two_pow h1 h2)

theorem inv_bitand {a b : MaxBits} (ha : Inv a) (hb : Inv b) :
    Inv (bitand a b) := by
  show Inv ⟨min a.width b.width, a.data &&& b.data⟩
  refine inv_of_lt_min (lt_of_le_of_lt Nat.and_le_left ha.data_lt) ?_
  rcases le_total a.width b.width with hab | hab
  · have hm : min (min a.width b.width) MaximumWidth = min a.width MaximumWidth := by
      omega
    rw [hm]
    exact lt_of_le_of_lt Nat.and_le_left ha.lt_pow_min
  · have hm : min (min a.width b.width) MaximumWidth = min b.width MaximumWidth := by
      omega
    rw [hm]
    exact lt_of_le_of_lt Nat.and_le_right hb.lt_pow_min

theorem inv_bnot {a : MaxBits} (ha : Inv a) : Inv (bnot a) := by
  show Inv ⟨MaximumWidth, a.data ^^^ (2 ^ MaximumWidth - 1)⟩
  have hmask : 2 ^ MaximumWidth - 1 < 2 ^ MaximumWidth := by
    have := Nat.two_pow_pos MaximumWidth
    omega
  have hx := Nat.xor_lt_two_pow ha.data_lt hmask
  refine inv_of_lt_min hx ?_
  have hm : min MaximumWidth MaximumWidth = MaximumWidth := by omega
  rw [hm]
  exact hx

theorem inv_add {a b : MaxBits} (ha : Inv a) (hb : Inv b)
    (hc : max a.width b.width + 1 ≤ MaximumWidth) : Inv (add a b) := by
  have hsum := add_sum_lt ha hb hc
  have h128 : a.data + b.data < 2 ^ MaximumWidth :=
    lt_of_lt_of_le hsum (Nat.pow_le_pow_right (by norm_num) hc)
  show Inv ⟨max a.width b.width + 1, (a.data + b.data) % 2 ^ MaximumWidth⟩
  rw [Nat.mod_eq_of_lt h128]
  refine inv_of_lt_min h128 ?_
  have hm : min (max a.width b.width + 1) MaximumWidth = max a.width b.width + 1 := by
    omega
  rw [hm]
  exact hsum

/-! Claim theorems. -/

/-- C1 (amended): for a value of declared width `W` the stored 128-bit cell
has at least `128 - W` leading zero bits, and every operation other than
subtract — widen, left shift, right shift below the storage width, OR, XOR,
AND, NOT, add — under its compile-time width constraints and with operands
satisfying the invariant at their own widths, produces a result satisfying
the invariant at the operation's derived output width, with no runtime
check anywhere except in construct and narrow.  Two cases are excluded (see
the counterexample): subtract tags its result `W1 - 1` while computing
`d1 + d2`, and right shift by `S = 128` — which `Shr`'s sole bound
`Shift ≤ Width` permits — overflows the `u128` shift, panicking in checked
builds and leaving the data unchanged at width `W - S` in unchecked
builds; both violate the invariant. -/
theorem C1_fits_invariant_preserved (a b : MaxBits) (W' S : Nat)
    (ha : Inv a) (hb : Inv b) :
    (a.width ≤ W' → Inv (widen a W')) ∧
    (a.width + S ≤ MaximumWidth → Inv (shl a S)) ∧
    (S ≤ a.width → S < MaximumWidth → Inv (shr a S)) ∧
    Inv (bitor a b) ∧
    Inv (bitxor a b) ∧
    Inv (bitand a b) ∧
    Inv (bnot a) ∧
    (max a.width b.width + 1 ≤ MaximumWidth → Inv (add a b)) :=
  ⟨fun h => inv_widen ha h, fun h => inv_shl ha h,
    fun h hS => inv_shr ha h hS,
    inv_bitor ha hb, inv_bitxor ha hb, inv_bitand ha hb, inv_bnot ha,
    fun h => inv_add ha hb h⟩

/-- C1 witness: the amended preservation statement at widths 3 and 2,
widen target 7, shift 1. -/
theorem C1_witness :
    Inv (⟨3, 5⟩ : MaxBits) ∧ Inv (⟨2, 2⟩ : MaxBits) ∧
    ((3 ≤ 7 → Inv (widen ⟨3, 5⟩ 7)) ∧
     (3 + 1 ≤ MaximumWidth → Inv (shl ⟨3, 5⟩ 1)) ∧
     (1 ≤ 3 → 1 < MaximumWidth → Inv (shr ⟨3, 5⟩ 1)) ∧
     Inv (bitor ⟨3, 5⟩ ⟨2, 2⟩) ∧
     Inv (bitxor ⟨3, 5⟩ ⟨2, 2⟩) ∧
     Inv (bitand ⟨3, 5⟩ ⟨2, 2⟩) ∧
     Inv (bnot ⟨3, 5⟩) ∧
     (max 3 2 + 1 ≤ MaximumWidth → Inv (add ⟨3, 5⟩ ⟨2, 2⟩))) :=
  ⟨by decide, by decide,
    C1_fits_invariant_preserved ⟨3, 5⟩ ⟨2, 2⟩ 7 1 (by decide) (by decide)⟩

set_option maxRecDepth 4000 in
/-- C1 counterexample: two operations violate the claim as stated.
Subtract: both operands are width-1 values holding 1 (they satisfy the
invariant, and the compile-time constraints `1 ≤ W1` and `W2 ≤ W1` hold),
yet `sub` yields data `1 + 1 = 2` tagged width `1 - 1 = 0`, whose
leading-zero count 126 is below the required `128 - 0 = 128`.  Right
shift: `2 ^ 128 - 1` at width 128 satisfies the invariant and `Shr`'s
constraint `S ≤ W` holds at `S = 128`, but the `u128` shift overflows —
under the unchecked masked semantics the amount becomes `128 % 128 = 0`
and the data is returned unchanged, tagged width 0, where it has no
leading zeros at all (checked builds panic instead; either way no
invariant-satisfying result is produced). -/
theorem C1_sub_shr_counterexample :
    (Inv (⟨1, 1⟩ : MaxBits) ∧ (1 : Nat) ≤ 1 ∧
      sub ⟨1, 1⟩ ⟨1, 1⟩ = ⟨0, 2⟩ ∧ ¬ Inv (sub ⟨1, 1⟩ ⟨1, 1⟩)) ∧
    (Inv (⟨128, 2 ^ 128 - 1⟩ : MaxBits) ∧ (128 : Nat) ≤ 128 ∧
      shr ⟨128, 2 ^ 128 - 1⟩ 128 = ⟨0, 2 ^ 128 - 1⟩ ∧
      ¬ Inv (shr ⟨128, 2 ^ 128 - 1⟩ 128)) := by decide

/-- C3: with the compile-time constraints `1 ≤ W1` and `W2 ≤ W1` in force,
subtract tags its result with width `W1 - 1` and its raw value computation
is identical to add's: the stored cell is the sum of the raw operands (the
`u128` sum, equal to the arithmetic sum whenever that fits in 128 bits),
not their difference — e.g. widths 16 and 8 holding 10 and 3 store 13,
not 7. -/
theorem C3_sub_mirrors_add (a b : MaxBits) (h1 : 1 ≤ a.width)
    (hc : b.width ≤ a.width) :
    (sub a b).width = a.width - 1 ∧
    (sub a b).data = (add a b).data ∧
    (a.data + b.data < 2 ^ MaximumWidth → (sub a b).data = a.data + b.data) ∧
    (sub ⟨16, 10⟩ ⟨8, 3⟩).data = 13 ∧ (10 - 3 : Nat) ≠ 13 :=
  ⟨rfl, rfl, fun h => Nat.mod_eq_of_lt h, by decide, by decide⟩

/-- C3 witness: widths 2 and 1 holding 3 and 1. -/
theorem C3_witness :
    (1 : Nat) ≤ 2 ∧ (1 : Nat) ≤ 2 ∧
    ((sub ⟨2, 3⟩ ⟨1, 1⟩).width = 2 - 1 ∧
     (sub ⟨2, 3⟩ ⟨1, 1⟩).data = (add ⟨2, 3⟩ ⟨1, 1⟩).data ∧
     (3 + 1 < 2 ^ MaximumWidth → (sub ⟨2, 3⟩ ⟨1, 1⟩).data = 3 + 1) ∧
     (sub ⟨16, 10⟩ ⟨8, 3⟩).data = 13 ∧ (10 - 3 : Nat) ≠ 13) :=
  ⟨by decide, by decide, C3_sub_mirrors_add ⟨2, 3⟩ ⟨1, 1⟩ (by decide) (by decide)⟩

/-- C8: OR and XOR tag their result with `max W1 W2`, AND with `min W1 W2`,
and NOT with the maximum supported width 128, unconditionally; in each case
the raw result is the ordinary bitwise operation on the raw operands (for
NOT, the complement within the 128-bit cell, i.e. xor with the all-ones
mask). -/
theorem C8_bitwise_rules (a b : MaxBits) :
    (bitor a b).width = max a.width b.width ∧
    (bitor a b).data = a.data ||| b.data ∧
    (bitxor a b).width = max a.width b.width ∧
    (bitxor a b).data = a.data ^^^ b.data ∧
    (bitand a b).width = min a.width b.width ∧
    (bitand a b).data = a.data &&& b.data ∧
    (bnot a).width = MaximumWidth ∧
    MaximumWidth = 128 ∧
    (bnot a).data = a.data ^^^ (2 ^ MaximumWidth - 1) :=
  ⟨rfl, rfl, rfl, rfl, rfl, rfl, rfl, rfl, rfl⟩

/-- C10: under add's compile-time constraint `max W1 W2 + 1 ≤ 128` and with
both operands satisfying the fits invariant at their declared widths, the
raw addition stays below `2 ^ 128`, so the `u128` addition cannot overflow:
the stored result is the exact arithmetic sum. -/
theorem C10_add_no_overflow (a b : MaxBits) (ha : Inv a) (hb : Inv b)
    (hc : max a.width b.width + 1 ≤ MaximumWidth) :
    a.data + b.data < 2 ^ MaximumWidth ∧ (add a b).data = a.data + b.data := by
  have hsum := add_sum_lt ha hb hc
  have h128 : a.data + b.data < 2 ^ MaximumWidth :=
    lt_of_lt_of_le hsum (Nat.pow_le_pow_right (by norm_num) hc)
  exact ⟨h128, Nat.mod_eq_of_lt h128⟩

/-- C10 witness: two width-1 values holding 1. -/
theorem C10_witness :
    Inv (⟨1, 1⟩ : MaxBits) ∧ Inv (⟨1, 1⟩ : MaxBits) ∧
    max 1 1 + 1 ≤ MaximumWidth ∧
    (1 + 1 < 2 ^ MaximumWidth ∧ (add ⟨1, 1⟩ ⟨1, 1⟩).data = 1 + 1) :=
  ⟨by decide, by decide, by decide,
    C10_add_no_overflow ⟨1, 1⟩ ⟨1, 1⟩ (by decide) (by decide) (by decide)⟩

/-- C2: for every `u128` raw value `r` and every supported width
`W ≤ MaximumWidth`, `new` succeeds iff `r` needs at most `W` significant
bits (equivalently, `r` has at least `128 - W` leading zero bits, which is
exactly the fits check), and on success `into_inner` returns exactly `r`. -/
theorem C2_construct_extract (W r : Nat) (hr : r < 2 ^ MaximumWidth)
    (hW : W ≤ MaximumWidth) :
    ((new W r).isSome ↔ sigBits r ≤ W) ∧
    (∀ v, new W r = some v → into_inner v = r) := by
  have hfit : fits W r = true ↔ sigBits r ≤ W := by
    rw [fits_iff_of_le hr hW, ← sigBits_le_iff hr]
  constructor
  · by_cases hf : fits W r = true
    · simp [new, hf, hfit.mp hf]
    · have hns : ¬ sigBits r ≤ W := fun hh => hf (hfit.mpr hh)
      simp [new, hf, hns]
  · intro v hv
    by_cases hf : fits W r = true
    · simp only [new, hf, if_true, Option.some.injEq] at hv
      rw [← hv]
      rfl
    · simp [new, hf] at hv

/-- C2 witness: raw value 5 at width 3. -/
theorem C2_witness :
    (5 : Nat) < 2 ^ MaximumWidth ∧ (3 : Nat) ≤ MaximumWidth ∧
    (((new 3 5).isSome ↔ sigBits 5 ≤ 3) ∧
      ∀ v, new 3 5 = some v → into_inner v = 5) :=
  ⟨by decide, by decide, C2_construct_extract 3 5 (by decide) (by decide)⟩

/-- C4: under the compile-time constraint `max W1 W2 + 1 ≤ 128`, add tags
its result with `max W1 W2 + 1` and stores the exact sum of the raw
operands; the concrete scenario from `main` — 0xFFFF at width 16, shifted
left by 15, widened to 32, added to 0xCDBAEF123456 at width 48 — has both
constructions succeed and produces width 49 with the sum of the two raw
operands. -/
theorem C4_add_width_and_scenario (a b : MaxBits) (ha : Inv a) (hb : Inv b)
    (hc : max a.width b.width + 1 ≤ MaximumWidth) :
    ((add a b).width = max a.width b.width + 1 ∧
      (add a b).data = a.data + b.data) ∧
    (new 16 0xffff = some ⟨16, 0xffff⟩ ∧
      new 48 0xcdbaef123456 = some ⟨48, 0xcdbaef123456⟩ ∧
      add (widen (shl ⟨16, 0xffff⟩ 15) 32) ⟨48, 0xcdbaef123456⟩ =
        ⟨49, 0xffff * 2 ^ 15 + 0xcdbaef123456⟩) := by
  refine ⟨⟨rfl, ?_⟩, by decide, by decide, by decide⟩
  have hsum := add_sum_lt ha hb hc
  exact Nat.mod_eq_of_lt (lt_of_lt_of_le hsum (Nat.pow_le_pow_right (by norm_num) hc))

/-- C4 witness: width-1 values 1 and 0, plus the concrete scenario. -/
theorem C4_witness :
    Inv (⟨1, 1⟩ : MaxBits) ∧ Inv (⟨1, 0⟩ : MaxBits) ∧
    max 1 1 + 1 ≤ MaximumWidth ∧
    (((add ⟨1, 1⟩ ⟨1, 0⟩).width = max 1 1 + 1 ∧
       (add ⟨1, 1⟩ ⟨1, 0⟩).data = 1 + 0) ∧
      (new 16 0xffff = some ⟨16, 0xffff⟩ ∧
        new 48 0xcdbaef123456 = some ⟨48, 0xcdbaef123456⟩ ∧
        add (widen (shl ⟨16, 0xffff⟩ 15) 32) ⟨48, 0xcdbaef123456⟩ =
          ⟨49, 0xffff * 2 ^ 15 + 0xcdbaef123456⟩)) :=
  ⟨by decide, by decide, by decide,
    C4_add_width_and_scenario ⟨1, 1⟩ ⟨1, 0⟩ (by decide) (by decide) (by decide)⟩

/-- C5: for every value satisfying the fits invariant at a supported width
`W ≤ 128` and every `W' ≥ W` (the compile-time widen/narrow constraints),
widening to `W'` and narrowing back to `W` succeeds and returns the value
unchanged. -/
theorem C5_widen_narrow_roundtrip (v : MaxBits) (W' : Nat) (h : Inv v)
    (hmax : v.width ≤ MaximumWidth) (hW : v.width ≤ W') :
    narrow (widen v W') v.width = some v := by
  show new v.width v.data = some v
  simp only [new, h.2, if_true]

/-- C5 witness: 255 at width 8 widened to 10 and narrowed back. -/
theorem C5_witness :
    Inv (⟨8, 255⟩ : MaxBits) ∧ (8 : Nat) ≤ MaximumWidth ∧ (8 : Nat) ≤ 10 ∧
    narrow (widen ⟨8, 255⟩ 10) 8 = some ⟨8, 255⟩ :=
  ⟨by decide, by decide, by decide,
    C5_widen_narrow_roundtrip ⟨8, 255⟩ 10 (by decide) (by decide) (by decide)⟩

/-- C6: for every value satisfying the fits invariant and every shift `S`
with `W + S ≤ 128` (the compile-time shl constraint), shifting left by `S`
(width `W + S`) and back right by `S` (width `W`) returns the value
unchanged. -/
theorem C6_shift_roundtrip (v : MaxBits) (S : Nat) (h : Inv v)
    (hc : v.width + S ≤ MaximumWidth) : shr (shl v S) S = v := by
  rcases lt_or_ge S MaximumWidth with hS | hS
  · have hmod : S % MaximumWidth = S := Nat.mod_eq_of_lt hS
    have hWm : min v.width MaximumWidth = v.width := by omega
    have hd : v.data < 2 ^ v.width := by rw [← hWm]; exact h.lt_pow_min
    have hdS : v.data <<< S < 2 ^ MaximumWidth := by
      rw [Nat.shiftLeft_eq]
      calc v.data * 2 ^ S < 2 ^ v.width * 2 ^ S :=
            mul_lt_mul_of_pos_right hd (Nat.two_pow_pos S)
        _ = 2 ^ (v.width + S) := (pow_add 2 v.width S).symm
        _ ≤ 2 ^ MaximumWidth := Nat.pow_le_pow_right (by norm_num) hc
    have h1 : shr (shl v S) S =
        ⟨v.width + S - S,
          (v.data <<< (S % MaximumWidth) % 2 ^ MaximumWidth) >>>
            (S % MaximumWidth)⟩ := rfl
    have h2 : v.width + S - S = v.width := by omega
    rw [h1, hmod, Nat.mod_eq_of_lt hdS, Nat.shiftLeft_eq,
      Nat.shiftRight_eq_div_pow, Nat.mul_div_cancel _ (Nat.two_pow_pos S), h2]
  · have hS128 : S = MaximumWidth := by omega
    have hW0 : v.width = 0 := by omega
    have hd0 : v.data = 0 := inv_width_zero h hW0
    obtain ⟨W, d⟩ := v
    have hW0' : W = 0 := hW0
    have hd0' : d = 0 := hd0
    subst hS128
    subst hW0'
    subst hd0'
    decide

/-- C6 witness: 0xFFFF at width 16 shifted left and back by 15. -/
theorem C6_witness :
    Inv (⟨16, 0xffff⟩ : MaxBits) ∧ 16 + 15 ≤ MaximumWidth ∧
    shr (shl ⟨16, 0xffff⟩ 15) 15 = ⟨16, 0xffff⟩ :=
  ⟨by decide, by decide,
    C6_shift_roundtrip ⟨16, 0xffff⟩ 15 (by decide) (by decide)⟩

/-- C7: for every value at a supported width and every target `W' ≤ W`
(the compile-time narrow constraint), narrow re-runs the fits check and
returns `none` exactly when the stored value needs more than `W'`
significant bits; on success the raw data is unchanged (never truncated);
in particular 255 at width 8 narrowed to width 7 fails. -/
theorem C7_narrow_checks (v : MaxBits) (W' : Nat) (h : Inv v)
    (hmax : v.width ≤ MaximumWidth) (hc : W' ≤ v.width) :
    (narrow v W' = none ↔ ¬ sigBits v.data ≤ W') ∧
    (∀ u, narrow v W' = some u → u.data = v.data ∧ u.width = W') ∧
    narrow ⟨8, 255⟩ 7 = none := by
  have hW' : W' ≤ MaximumWidth := le_trans hc hmax
  have hfit : fits W' v.data = true ↔ sigBits v.data ≤ W' := by
    rw [fits_iff_of_le h.data_lt hW', ← sigBits_le_iff h.data_lt]
  refine ⟨?_, ?_, by decide⟩
  · by_cases hf : fits W' v.data = true
    · simp [narrow, new, hf, hfit.mp hf]
    · have hns : ¬ sigBits v.data ≤ W' := fun hh => hf (hfit.mpr hh)
      simp [narrow, new, hf, hns]
  · intro u hu
    by_cases hf : fits W' v.data = true
    · simp only [narrow, new, hf, if_true, Option.some.injEq] at hu
      rw [← hu]
      exact ⟨rfl, rfl⟩
    · simp [narrow, new, hf] at hu

/-- C7 witness: 255 at width 8 narrowed to 7. -/
theorem C7_witness :
    Inv (⟨8, 255⟩ : MaxBits) ∧ (8 : Nat) ≤ MaximumWidth ∧ (7 : Nat) ≤ 8 ∧
    ((narrow ⟨8, 255⟩ 7 = none ↔ ¬ sigBits 255 ≤ 7) ∧
      (∀ u, narrow ⟨8, 255⟩ 7 = some u → u.data = 255 ∧ u.width = 7) ∧
      narrow ⟨8, 255⟩ 7 = none) :=
  ⟨by decide, by decide, by decide,
    C7_narrow_checks ⟨8, 255⟩ 7 (by decide) (by decide) (by decide)⟩

/-- C9 counterexample: the claim that widths above the maximum are rejected
at compile time fails on the code.  The source bounds the width parameter
of `MaxBits` and `MaxBits::new` only by `typenum::Unsigned`, with no
`IsLessOrEqual<MaximumWidth>` constraint, so `MaxBits::<U129>::new(0)`
compiles, and evaluating its fits check reaches the `u32` subtraction
`128 - 129`, which underflows (a panic, modelled as `none`) — the
subtraction IS evaluated with `W > 128`. -/
theorem C9_width_129_reaches_runtime :
    checkedSub MaximumWidth 129 = none ∧ fitsChecked 129 0 = none ∧
    newChecked 129 0 = none := by decide

set_option maxRecDepth 4000 in
/-- C9 (amended): constructing at the maximum supported width 128 with the
maximum representable raw value `2 ^ 128 - 1` succeeds; but construction at
widths above 128 is expressible (nothing bounds the width parameter by the
maximum), and there it is the runtime fits check whose width subtraction
underflows — a runtime panic, not a compile-time rejection. -/
theorem C9_boundary :
    new MaximumWidth (2 ^ MaximumWidth - 1) =
      some ⟨MaximumWidth, 2 ^ MaximumWidth - 1⟩ ∧
    newChecked MaximumWidth (2 ^ MaximumWidth - 1) =
      some (some ⟨MaximumWidth, 2 ^ MaximumWidth - 1⟩) ∧
    newChecked 129 0 = none := by decide
